import Mathlib

/-!
Verification of the stead control plane core against its design document.

The Rust sources are embedded shallowly: pure functions become Lean
functions, the SQLite-backed contract store becomes explicit state passing
over a `DBState` record (transactions roll back by returning the original
state), and the in-memory registries become records over association lists
that mirror the `HashMap` key discipline of the source.  u16 ports are
modelled as `Nat` with saturating addition capped at 65535.
-/

namespace Stead

/-! ## Contract lifecycle (stead-contracts/src/lib.rs) -/

inductive ContractStatus
  | pending
  | ready
  | claimed
  | executing
  | verifying
  | completed
  | failed
  | rollingBack
  | rolledBack
  | cancelled
  deriving DecidableEq, Fintype

structure TransitionError where
  fromStatus : ContractStatus
  toStatus : ContractStatus
  deriving DecidableEq

namespace ContractStatus

/-- `ContractStatus::valid_transitions`. -/
def valid_transitions : ContractStatus → List ContractStatus
  | pending => [ready, cancelled]
  | ready => [claimed, cancelled]
  | claimed => [executing, ready, cancelled]
  | executing => [verifying, failed, cancelled]
  | verifying => [completed, failed]
  | completed => []
  | failed => [ready, rollingBack, cancelled]
  | rollingBack => [rolledBack, failed]
  | rolledBack => []
  | cancelled => []

/-- `ContractStatus::can_transition_to`. -/
def can_transition_to (s target : ContractStatus) : Bool :=
  s.valid_transitions.contains target

/-- `ContractStatus::transition_to`. -/
def transition_to (s target : ContractStatus) : Except TransitionError ContractStatus :=
  if s.can_transition_to target then .ok target else .error ⟨s, target⟩

end ContractStatus

structure Contract where
  id : String
  status : ContractStatus
  blocked_by : List String
  deriving DecidableEq

structure ContractEvent where
  contract_id : String
  fromStatus : ContractStatus
  toStatus : ContractStatus
  deriving DecidableEq

/-- `Contract::new`: Ready when there are no blockers, Pending otherwise. -/
def Contract.new (id : String) (blocked_by : List String) : Contract :=
  { id := id
    status := if blocked_by.isEmpty then .ready else .pending
    blocked_by := blocked_by }

/-- `Contract::transition_to`: validates against the status machine, then
returns the updated contract together with the emitted event. -/
def Contract.transition_to (c : Contract) (target : ContractStatus) :
    Except TransitionError (Contract × ContractEvent) :=
  match c.status.transition_to target with
  | .error e => .error e
  | .ok t => .ok ({ c with status := t }, ⟨c.id, c.status, t⟩)

/-- The allowed-edges set exactly as the design document lists it in
section 4.1; written from the specification text, to be compared with
`ContractStatus.can_transition_to`, which is translated from the source. -/
def specAllowedEdges : List (ContractStatus × ContractStatus) :=
  [(.pending, .ready), (.pending, .cancelled),
   (.ready, .claimed), (.ready, .cancelled),
   (.claimed, .executing), (.claimed, .ready), (.claimed, .cancelled),
   (.executing, .verifying), (.executing, .failed), (.executing, .cancelled),
   (.verifying, .completed), (.verifying, .failed),
   (.failed, .ready), (.failed, .rollingBack), (.failed, .cancelled),
   (.rollingBack, .rolledBack), (.rollingBack, .failed)]

/-- C1: for every ordered pair of statuses, `can_transition_to` agrees with
membership in the allowed-edges set of spec section 4.1, and the terminal
statuses Completed, RolledBack and Cancelled reject every outgoing
transition. -/
theorem can_transition_to_matches_spec_matrix :
    (∀ s t : ContractStatus,
      s.can_transition_to t = true ↔ (s, t) ∈ specAllowedEdges) ∧
    (∀ t : ContractStatus,
      ContractStatus.completed.can_transition_to t = false ∧
      ContractStatus.rolledBack.can_transition_to t = false ∧
      ContractStatus.cancelled.can_transition_to t = false) := by
  constructor
  · decide
  · decide

/-! ## Contract store (SqliteContractStore, stead-contracts/src/lib.rs)

The SQLite database is embedded as a `DBState` record: the `contracts`
table is a list of rows (primary key `id`, so reachable states keep ids
unique), the `contract_events` table is the append-only list of rows in
autoincrement order, and `decision_items` is a list of decision rows.
A rolled-back transaction is modelled by returning the original state. -/

structure EventRow where
  contract_id : String
  from_status : ContractStatus
  to_status : ContractStatus
  blocked_by_snapshot : List String
  deriving DecidableEq

structure DecisionRow where
  id : Nat
  contract_id : String
  summary : String
  resolved : Bool
  deriving DecidableEq

structure DBState where
  contracts : List Contract
  events : List EventRow
  decisions : List DecisionRow
  deriving DecidableEq

def emptyDB : DBState := ⟨[], [], []⟩

inductive StoreError
  | invalidQuery
  | queryReturnedNoRows
  deriving DecidableEq

/-- The effect of `UPDATE contracts SET status = ?, blocked_by = ? WHERE id = ?`
(also the conflict arm of the upsert in `save_contract`). -/
def updateRows : List Contract → String → ContractStatus → List String → List Contract
  | [], _, _, _ => []
  | r :: rest, cid, st, bb =>
    (if r.id == cid then { r with status := st, blocked_by := bb } else r)
      :: updateRows rest cid st bb

namespace DBState

/-- `SqliteContractStore::save_contract`: upsert of the snapshot row. -/
def save_contract (db : DBState) (c : Contract) : DBState :=
  if db.contracts.any (fun r => r.id == c.id) then
    { db with contracts := updateRows db.contracts c.id c.status c.blocked_by }
  else
    { db with contracts := db.contracts ++ [c] }

/-- `SqliteContractStore::load_contract`. -/
def load_contract (db : DBState) (id : String) : Option Contract :=
  db.contracts.find? fun r => r.id == id

/-- `SqliteContractStore::record_transition`: rejects a mismatched id, then
in one transaction updates the snapshot row (rolling back when no row
matched) and appends the event row (rolling back when the foreign key on
`contract_id` is violated).  Returns the resulting database state plus the
error, the state being unchanged exactly when an error is returned. -/
def record_transition (db : DBState) (c : Contract) (e : ContractEvent) :
    DBState × Option StoreError :=
  if c.id ≠ e.contract_id then (db, some .invalidQuery)
  else
    let updated := db.contracts.countP fun r => r.id == c.id
    if updated = 0 then (db, some .queryReturnedNoRows)
    else
      let afterUpdate : DBState :=
        { db with contracts := updateRows db.contracts c.id c.status c.blocked_by }
      if afterUpdate.contracts.any (fun r => r.id == e.contract_id) then
        ({ afterUpdate with
            events := afterUpdate.events ++
              [⟨e.contract_id, e.fromStatus, e.toStatus, c.blocked_by⟩] }, none)
      else
        (db, some .invalidQuery)

/-- `SqliteContractStore::list_events`, restricted to one contract id;
list order is the autoincrement insertion order. -/
def list_events (db : DBState) (contract_id : String) : List EventRow :=
  db.events.filter fun e => e.contract_id == contract_id

/-- `SqliteContractStore::rebuild_contract_from_events`: with no events,
return the snapshot; otherwise seed from the first event and fold every
event's `to_status`/`blocked_by_snapshot` over it in log order. -/
def rebuild_contract_from_events (db : DBState) (id : String) : Option Contract :=
  let snapshot := db.load_contract id
  match db.list_events id with
  | [] => snapshot
  | first :: _ =>
    let rebuilt := snapshot.getD (Contract.new id [])
    let seeded : Contract :=
      { rebuilt with status := first.from_status, blocked_by := first.blocked_by_snapshot }
    some ((db.list_events id).foldl
      (fun acc ev => { acc with status := ev.to_status, blocked_by := ev.blocked_by_snapshot })
      seeded)

end DBState

/-- Shared helper: any errored `record_transition` leaves the database
exactly as it was (the transaction rolled back). -/
theorem record_transition_error_eq (db : DBState) (c : Contract) (e : ContractEvent)
    (h : (db.record_transition c e).2.isSome) : (db.record_transition c e).1 = db := by
  simp only [DBState.record_transition] at h ⊢
  by_cases h1 : c.id ≠ e.contract_id
  · simp [h1]
  · simp only [if_neg h1] at h ⊢
    by_cases h2 : (List.countP (fun r => r.id == c.id) db.contracts) = 0
    · simp [h2]
    · simp only [if_neg h2] at h ⊢
      by_cases h3 : ((updateRows db.contracts c.id c.status c.blocked_by).any
          fun r => r.id == e.contract_id) = true
      · simp [h3] at h
      · simp [h3]

theorem find?_isSome_of_any {α : Type} {p : α → Bool} {l : List α}
    (h : l.any p = true) : (l.find? p).isSome = true := by
  induction l with
  | nil => simp at h
  | cons a l ih =>
    by_cases hpa : p a = true
    · rw [List.find?_cons_of_pos _ hpa]; rfl
    · rw [List.find?_cons_of_neg _ hpa]
      exact ih (by simpa [hpa] using h)

theorem find?_eq_none_of_any_eq_false {α : Type} {p : α → Bool} {l : List α}
    (h : l.any p = false) : l.find? p = none := by
  induction l with
  | nil => rfl
  | cons a l ih =>
    have hpa : p a = false := by
      cases hh : p a
      · rfl
      · rw [List.any_cons, hh] at h; simp at h
    rw [List.find?_cons_of_neg _ (by simp [hpa])]
    exact ih (by simpa [hpa] using h)

theorem any_eq_false_of_find?_eq_none {α : Type} {p : α → Bool} {l : List α}
    (h : l.find? p = none) : l.any p = false := by
  induction l with
  | nil => rfl
  | cons a l ih =>
    cases hpa : p a
    · rw [List.find?_cons_of_neg _ (by simp [hpa])] at h
      rw [List.any_cons, hpa, ih h]
      rfl
    · rw [List.find?_cons_of_pos _ hpa] at h
      cases h

theorem find?_updateRows_self (l : List Contract) (cid : String)
    (st : ContractStatus) (bb : List String) :
    (updateRows l cid st bb).find? (fun r => r.id == cid)
      = (l.find? (fun r => r.id == cid)).map (fun r => ⟨r.id, st, bb⟩) := by
  induction l with
  | nil => rfl
  | cons a l ih =>
    simp only [updateRows]
    cases hh : (a.id == cid) with
    | true => simp [hh, List.find?_cons]
    | false => simp [hh, List.find?_cons, ih]

theorem find?_updateRows_other (l : List Contract) (cid cid2 : String)
    (st : ContractStatus) (bb : List String) (hne : cid2 ≠ cid) :
    (updateRows l cid st bb).find? (fun r => r.id == cid2)
      = l.find? (fun r => r.id == cid2) := by
  induction l with
  | nil => rfl
  | cons a l ih =>
    simp only [updateRows]
    cases hh : (a.id == cid) with
    | true =>
      have ha : a.id = cid := by simpa using hh
      have h2 : (a.id == cid2) = false := by
        simp [ha]
        exact Ne.symm hne
      simp [hh, h2, List.find?_cons, ih]
    | false =>
      cases h2 : (a.id == cid2) with
      | true => simp [hh, h2, List.find?_cons]
      | false => simp [hh, h2, List.find?_cons, ih]

theorem load_save_self (db : DBState) (c : Contract) :
    (db.save_contract c).load_contract c.id = some c := by
  unfold DBState.save_contract DBState.load_contract
  by_cases h : (db.contracts.any fun r => r.id == c.id) = true
  · rw [if_pos h]
    simp only [find?_updateRows_self]
    obtain ⟨r, hr⟩ := Option.isSome_iff_exists.mp (find?_isSome_of_any h)
    have hid : r.id = c.id := by simpa using List.find?_some hr
    rw [hr]
    simp [hid]
  · rw [if_neg h]
    have hnone : db.contracts.find? (fun r => r.id == c.id) = none :=
      find?_eq_none_of_any_eq_false (Bool.eq_false_iff.mpr h)
    rw [List.find?_append, hnone]
    simp

theorem load_save_other (db : DBState) (c : Contract) (id : String) (h : id ≠ c.id) :
    (db.save_contract c).load_contract id = db.load_contract id := by
  unfold DBState.save_contract DBState.load_contract
  by_cases hp : (db.contracts.any fun r => r.id == c.id) = true
  · rw [if_pos hp]
    exact find?_updateRows_other _ _ _ _ _ h
  · rw [if_neg hp, List.find?_append]
    have hb : (c.id == id) = false := beq_eq_false_iff_ne.mpr (Ne.symm h)
    simp [List.find?_cons, hb]

theorem save_events (db : DBState) (c : Contract) :
    (db.save_contract c).events = db.events := by
  unfold DBState.save_contract
  split <;> rfl

/-- C2: `record_transition` errors on a mismatched contract id, and every
call that returns an error leaves both the contracts snapshot table and
the contract_events log exactly as they were: the update and the append
happen in one transaction or not at all. -/
theorem record_transition_atomic_on_error (db : DBState) (c : Contract) (e : ContractEvent) :
    (c.id ≠ e.contract_id →
      (db.record_transition c e) = (db, some .invalidQuery)) ∧
    (∀ err : StoreError, (db.record_transition c e).2 = some err →
      (db.record_transition c e).1.contracts = db.contracts ∧
      (db.record_transition c e).1.events = db.events) := by
  refine ⟨fun hne => ?_, fun err herr => ?_⟩
  · unfold DBState.record_transition
    rw [if_pos hne]
  · have h := record_transition_error_eq db c e (by rw [herr]; rfl)
    rw [h]
    exact ⟨rfl, rfl⟩

theorem record_transition_success (db : DBState) (c : Contract) (e : ContractEvent)
    (h : (db.record_transition c e).2 = none) :
    c.id = e.contract_id ∧
    (db.record_transition c e).1 =
      { db with
          contracts := updateRows db.contracts c.id c.status c.blocked_by,
          events := db.events ++ [⟨e.contract_id, e.fromStatus, e.toStatus, c.blocked_by⟩] } := by
  simp only [DBState.record_transition] at h ⊢
  by_cases h1 : c.id ≠ e.contract_id
  · simp [h1] at h
  · simp only [if_neg h1] at h ⊢
    by_cases h2 : (List.countP (fun r => r.id == c.id) db.contracts) = 0
    · simp [h2] at h
    · simp only [if_neg h2] at h ⊢
      by_cases h3 : ((updateRows db.contracts c.id c.status c.blocked_by).any
          fun r => r.id == e.contract_id) = true
      · simp only [if_pos h3]
        exact ⟨not_not.mp h1, trivial⟩
      · simp [h3] at h

theorem save_list_events (db : DBState) (c : Contract) (id : String) :
    (db.save_contract c).list_events id = db.list_events id := by
  unfold DBState.list_events
  rw [save_events]

theorem list_events_of_mk (cs : List Contract) (evs : List EventRow)
    (ds : List DecisionRow) (id : String) :
    (DBState.mk cs evs ds).list_events id
      = evs.filter (fun e2 => e2.contract_id == id) := rfl

theorem foldl_apply_events (l : List EventRow) (seed : Contract) (ev : EventRow)
    (h : l.getLast? = some ev) :
    l.foldl (fun acc e2 =>
        { acc with status := e2.to_status, blocked_by := e2.blocked_by_snapshot }) seed
      = ⟨seed.id, ev.to_status, ev.blocked_by_snapshot⟩ := by
  induction l generalizing seed with
  | nil => cases h
  | cons x xs ih =>
    cases xs with
    | nil =>
      have hx : x = ev := by simpa using h
      subst hx
      rfl
    | cons y ys =>
      have h2 : (y :: ys).getLast? = some ev := by
        simpa [List.getLast?_cons_cons] using h
      rw [List.foldl_cons]
      exact ih _ h2

theorem getLast?_cons_isSome {α : Type} (a : α) (l : List α) :
    ((a :: l).getLast?).isSome = true := by
  induction l generalizing a with
  | nil => rfl
  | cons b l ih => rw [List.getLast?_cons_cons]; exact ih b

/-! ### Store operation traces for the replay invariant -/

/-- A mutating operation against the contract store. -/
inductive StoreOp
  | save (c : Contract)
  | record (c : Contract) (e : ContractEvent)
  deriving DecidableEq

def applyOp (db : DBState) : StoreOp → DBState
  | .save c => db.save_contract c
  | .record c e => (db.record_transition c e).1

def applyOps (db : DBState) (ops : List StoreOp) : DBState :=
  ops.foldl applyOp db

/-- The coherence side condition under which replay reconstructs the
snapshot for `id`: the contract is not re-saved after creation, and every
`record_transition` call against it carries an event whose `to` status is
the contract status being written — exactly what `Contract::transition_to`
produces for the daemon. -/
def opCoherent (id : String) : StoreOp → Bool
  | .save c => c.id != id
  | .record c e => !(c.id == id) || (e.toStatus == c.status)

/-- Replaying the event log of `id` from the first event reproduces the
snapshot: the loaded snapshot exists, and the last logged event carries the
snapshot's status and blocked_by. -/
def SnapMatches (db : DBState) (id : String) : Prop :=
  ∀ ev, (db.list_events id).getLast? = some ev →
    ∃ c, db.load_contract id = some c ∧
      ev.to_status = c.status ∧ ev.blocked_by_snapshot = c.blocked_by

def RebuildInv (db : DBState) (id : String) : Prop :=
  ((db.load_contract id).isSome = true) ∧ SnapMatches db id

theorem applyOp_inv (db : DBState) (id : String) (op : StoreOp)
    (hc : opCoherent id op = true) (hdb : RebuildInv db id) :
    RebuildInv (applyOp db op) id := by
  obtain ⟨hsome, hsnap⟩ := hdb
  cases op with
  | save c =>
    have hne : id ≠ c.id := by
      intro hcontra
      simp [opCoherent, hcontra] at hc
    constructor
    · simpa only [applyOp, load_save_other db c id hne] using hsome
    · intro ev hev
      rw [applyOp, save_list_events] at hev
      obtain ⟨c2, hc2, h1, h2⟩ := hsnap ev hev
      exact ⟨c2, by rw [applyOp, load_save_other db c id hne]; exact hc2, h1, h2⟩
  | record c e =>
    cases hres : (db.record_transition c e).2 with
    | some err =>
      have heq : (db.record_transition c e).1 = db :=
        record_transition_error_eq db c e (by rw [hres]; rfl)
      rw [applyOp, heq]
      exact ⟨hsome, hsnap⟩
    | none =>
      obtain ⟨hide, hstate⟩ := record_transition_success db c e hres
      by_cases hcid : c.id = id
      · obtain ⟨r, hr⟩ := Option.isSome_iff_exists.mp hsome
        have hload2 : (applyOp db (.record c e)).load_contract id
            = some ⟨r.id, c.status, c.blocked_by⟩ := by
          rw [applyOp, hstate]
          show (updateRows db.contracts c.id c.status c.blocked_by).find?
            (fun x => x.id == id) = _
          rw [hcid, find?_updateRows_self]
          rw [show db.contracts.find? (fun x => x.id == id) = some r from hr]
          rfl
        constructor
        · rw [hload2]; rfl
        · intro ev hev
          have hrowid : ((⟨e.contract_id, e.fromStatus, e.toStatus, c.blocked_by⟩ :
              EventRow).contract_id == id) = true := by
            simp [← hide, hcid]
          rw [applyOp, hstate, list_events_of_mk, List.filter_append] at hev
          rw [show List.filter (fun e2 => e2.contract_id == id)
              [(⟨e.contract_id, e.fromStatus, e.toStatus, c.blocked_by⟩ : EventRow)]
              = [⟨e.contract_id, e.fromStatus, e.toStatus, c.blocked_by⟩] from by
            simp [hrowid]] at hev
          rw [List.getLast?_concat] at hev
          have hevr : ev = ⟨e.contract_id, e.fromStatus, e.toStatus, c.blocked_by⟩ :=
            (Option.some_injective _ hev.symm)
          subst hevr
          refine ⟨⟨r.id, c.status, c.blocked_by⟩, hload2, ?_, rfl⟩
          have : (e.toStatus == c.status) = true := by
            simpa [opCoherent, hcid] using hc
          simpa using this
      · have hne : id ≠ c.id := fun hcontra => hcid hcontra.symm
        have hload2 : (applyOp db (.record c e)).load_contract id
            = db.load_contract id := by
          rw [applyOp, hstate]
          show (updateRows db.contracts c.id c.status c.blocked_by).find?
            (fun x => x.id == id) = _
          exact find?_updateRows_other _ _ _ _ _ hne
        have hrowid : ((⟨e.contract_id, e.fromStatus, e.toStatus, c.blocked_by⟩ :
            EventRow).contract_id == id) = false := by
          simp [← hide]
          exact fun hcontra => hcid hcontra
        constructor
        · rw [hload2]; exact hsome
        · intro ev hev
          rw [applyOp, hstate, list_events_of_mk, List.filter_append] at hev
          rw [show List.filter (fun e2 => e2.contract_id == id)
              [(⟨e.contract_id, e.fromStatus, e.toStatus, c.blocked_by⟩ : EventRow)]
              = [] from by simp [hrowid]] at hev
          rw [List.append_nil] at hev
          obtain ⟨c2, hc2, h1, h2⟩ := hsnap ev hev
          exact ⟨c2, by rw [hload2]; exact hc2, h1, h2⟩

theorem applyOps_inv (id : String) (ops : List StoreOp) (db : DBState)
    (hdb : RebuildInv db id)
    (hops : ∀ op ∈ ops, opCoherent id op = true) :
    RebuildInv (applyOps db ops) id := by
  induction ops generalizing db with
  | nil => exact hdb
  | cons op ops ih =>
    exact ih (applyOp db op)
      (applyOp_inv db id op (hops op (List.mem_cons_self op ops)) hdb)
      (fun o ho => hops o (List.mem_cons_of_mem _ ho))

theorem rebuild_of_inv (db : DBState) (id : String) (hinv : RebuildInv db id) :
    ∃ snap, db.load_contract id = some snap ∧
      ∃ r, db.rebuild_contract_from_events id = some r ∧
        r.status = snap.status ∧ r.blocked_by = snap.blocked_by := by
  obtain ⟨hsome, hsnap⟩ := hinv
  obtain ⟨snap, hload⟩ := Option.isSome_iff_exists.mp hsome
  refine ⟨snap, hload, ?_⟩
  cases hev : db.list_events id with
  | nil =>
    refine ⟨snap, ?_, rfl, rfl⟩
    unfold DBState.rebuild_contract_from_events
    rw [hev, hload]
  | cons first rest =>
    obtain ⟨ev, hlast⟩ := Option.isSome_iff_exists.mp (getLast?_cons_isSome first rest)
    obtain ⟨c2, hc2, h1, h2⟩ := hsnap ev (by rw [hev]; exact hlast)
    have hcs : snap = c2 := by
      rw [hload] at hc2
      exact Option.some_injective _ hc2
    refine ⟨⟨snap.id, ev.to_status, ev.blocked_by_snapshot⟩, ?_, ?_, ?_⟩
    · unfold DBState.rebuild_contract_from_events
      rw [hev, hload]
      simp only [Option.getD_some]
      rw [foldl_apply_events (first :: rest) _ ev hlast]
    · show ev.to_status = snap.status
      rw [hcs]
      exact h1
    · show ev.blocked_by_snapshot = snap.blocked_by
      rw [hcs]
      exact h2

/-- C3 (amended): for a contract saved once and thereafter touched only by
`record_transition` calls whose event `to` status equals the written
contract status (as `Contract::transition_to` produces), rebuilding from
events returns a contract whose status and blocked_by equal the current
snapshot; and with an empty event log, rebuild returns the snapshot
unchanged.  The original claim, quantifying over arbitrary successful
`record_transition` calls, fails: the store never checks that
`event.to` matches `contract.status`. -/
theorem rebuild_matches_snapshot (c0 : Contract) (ops : List StoreOp) (id : String)
    (hid : c0.id = id)
    (hops : ∀ op ∈ ops, opCoherent id op = true) :
    (∃ snap, (applyOps (emptyDB.save_contract c0) ops).load_contract id = some snap ∧
       ∃ r, (applyOps (emptyDB.save_contract c0) ops).rebuild_contract_from_events id
              = some r ∧
         r.status = snap.status ∧ r.blocked_by = snap.blocked_by) ∧
    (∀ db2 : DBState, ∀ id2 : String, db2.list_events id2 = [] →
       db2.rebuild_contract_from_events id2 = db2.load_contract id2) := by
  constructor
  · apply rebuild_of_inv
    apply applyOps_inv id ops _ _ hops
    constructor
    · rw [← hid, load_save_self]; rfl
    · intro ev hev
      rw [save_list_events] at hev
      cases hev
  · intro db2 id2 h
    unfold DBState.rebuild_contract_from_events
    rw [h]

/-- Witness for C3: save `x` at Ready, then one coherent successful
transition Ready→Claimed; rebuild agrees with the snapshot. -/
theorem rebuild_matches_snapshot_witness :
    ∃ snap, (applyOps (emptyDB.save_contract ⟨"x", .ready, []⟩)
        [StoreOp.record ⟨"x", .claimed, []⟩ ⟨"x", .ready, .claimed⟩]).load_contract "x"
          = some snap ∧
      ∃ r, (applyOps (emptyDB.save_contract ⟨"x", .ready, []⟩)
          [StoreOp.record ⟨"x", .claimed, []⟩ ⟨"x", .ready, .claimed⟩]).rebuild_contract_from_events "x"
            = some r ∧
        r.status = snap.status ∧ r.blocked_by = snap.blocked_by :=
  (rebuild_matches_snapshot ⟨"x", .ready, []⟩
    [StoreOp.record ⟨"x", .claimed, []⟩ ⟨"x", .ready, .claimed⟩] "x" rfl (by decide)).1

/-- Counterexample to C3 as stated: `record_transition` succeeds even when
the event's `to` status differs from the written contract status, after
which replay (Executing) disagrees with the snapshot (Claimed). -/
theorem rebuild_counterexample :
    ((emptyDB.save_contract ⟨"x", .ready, []⟩).record_transition
        ⟨"x", .claimed, []⟩ ⟨"x", .ready, .executing⟩).2 = none ∧
    ((((emptyDB.save_contract ⟨"x", .ready, []⟩).record_transition
        ⟨"x", .claimed, []⟩ ⟨"x", .ready, .executing⟩).1.rebuild_contract_from_events "x").map
        Contract.status = some .executing) ∧
    ((((emptyDB.save_contract ⟨"x", .ready, []⟩).record_transition
        ⟨"x", .claimed, []⟩ ⟨"x", .ready, .executing⟩).1.load_contract "x").map
        Contract.status = some .claimed) := by
  decide

/-- Witness for C2 at a concrete input: a mismatched-id call errors and
changes nothing. -/
theorem record_transition_atomic_on_error_witness :
    ((emptyDB.save_contract ⟨"a", .ready, []⟩).record_transition
        ⟨"a", .claimed, []⟩ ⟨"b", .ready, .claimed⟩)
      = (emptyDB.save_contract ⟨"a", .ready, []⟩, some .invalidQuery) ∧
    ((emptyDB.save_contract ⟨"a", .ready, []⟩).record_transition
        ⟨"a", .claimed, []⟩ ⟨"b", .ready, .claimed⟩).1.contracts
      = (emptyDB.save_contract ⟨"a", .ready, []⟩).contracts := by
  constructor
  · exact (record_transition_atomic_on_error _ _ _).1 (by decide)
  · exact ((record_transition_atomic_on_error
      (emptyDB.save_contract ⟨"a", .ready, []⟩)
      ⟨"a", .claimed, []⟩ ⟨"b", .ready, .claimed⟩).2 .invalidQuery (by decide)).1

/-! ## Resource registry (stead-resources/src/lib.rs)

The `HashMap<ResourceKey, ResourceLease>` is embedded as a list of leases
looked up by the `resource` field; insertion replaces an existing entry
with the same key and appends otherwise, matching `HashMap::insert`. -/

inductive ResourceKey
  | port (value : Nat)
  deriving DecidableEq

structure ResourceLease where
  resource : ResourceKey
  owner : String
  deriving DecidableEq

structure ResourceConflict where
  requested : ResourceKey
  held_by : ResourceLease
  deriving DecidableEq

inductive ClaimResult
  | claimed (lease : ResourceLease)
  | negotiated (requested : ResourceKey) (assigned : ResourceLease) (held_by : ResourceLease)
  | conflict (c : ResourceConflict)
  deriving DecidableEq

inductive ResourceEvent
  | conflictEscalated (requested : ResourceKey) (requested_by : String)
      (held_by : String) (reason : String)
  deriving DecidableEq

structure ResourceRegistry where
  leases : List ResourceLease
  port_range : Nat × Nat
  events : List ResourceEvent
  deriving DecidableEq

/-- `u16::saturating_add(1)`. -/
def satAddOne (p : Nat) : Nat := min (p + 1) 65535

/-- `HashMap::insert` keyed by `resource`. -/
def insertResourceLease (ls : List ResourceLease) (l : ResourceLease) : List ResourceLease :=
  if ls.any (fun x => x.resource == l.resource) then
    ls.map (fun x => if x.resource == l.resource then l else x)
  else ls ++ [l]

namespace ResourceRegistry

/-- `ResourceRegistry::with_port_range` (the source asserts `start <= end`). -/
def with_port_range (rstart rend : Nat) : ResourceRegistry :=
  ⟨[], (rstart, rend), []⟩

def getLease (reg : ResourceRegistry) (k : ResourceKey) : Option ResourceLease :=
  reg.leases.find? (fun x => x.resource == k)

def leased (reg : ResourceRegistry) (k : ResourceKey) : Bool :=
  reg.leases.any (fun x => x.resource == k)

/-- `ResourceRegistry::next_available_port_after`: scan
`(max(requested+1, start) ..= end)` for the first unleased port. -/
def next_available_port_after (reg : ResourceRegistry) (resource : ResourceKey) :
    Option ResourceKey :=
  match resource with
  | .port requested =>
    let rstart := reg.port_range.1
    let rend := reg.port_range.2
    let lo := max (satAddOne requested) rstart
    ((List.range' lo (rend + 1 - lo)).map ResourceKey.port).find?
      (fun candidate => ! reg.leased candidate)

/-- `ResourceRegistry::claim`. -/
def claim (reg : ResourceRegistry) (resource : ResourceKey) (owner : String) :
    ResourceRegistry × ClaimResult :=
  match reg.getLease resource with
  | some existing =>
    if existing.owner == owner then (reg, .claimed existing)
    else
      match reg.next_available_port_after resource with
      | some negotiated_resource =>
        let assigned : ResourceLease := ⟨negotiated_resource, owner⟩
        ({ reg with leases := insertResourceLease reg.leases assigned },
         .negotiated resource assigned existing)
      | none =>
        ({ reg with events := reg.events ++
            [.conflictEscalated resource owner existing.owner "port_range_exhausted"] },
         .conflict ⟨resource, existing⟩)
  | none =>
    let lease : ResourceLease := ⟨resource, owner⟩
    ({ reg with leases := insertResourceLease reg.leases lease }, .claimed lease)

/-- `ResourceRegistry::drain_events`. -/
def drain_events (reg : ResourceRegistry) : ResourceRegistry × List ResourceEvent :=
  ({ reg with events := [] }, reg.events)

/-- `ResourceRegistry::export_leases` (hash iteration order modelled as
insertion order). -/
def export_leases (reg : ResourceRegistry) : List ResourceLease :=
  reg.leases

end ResourceRegistry

def applyResourceClaims (reg : ResourceRegistry)
    (cs : List (ResourceKey × String)) : ResourceRegistry :=
  cs.foldl (fun r c => (r.claim c.1 c.2).1) reg

/-! ## Endpoint registry (stead-endpoints/src/lib.rs) -/

structure EndpointLease where
  name : String
  owner : String
  port : Nat
  deriving DecidableEq

structure EndpointConflict where
  name : String
  requested_port : Nat
  held_by : Option EndpointLease
  deriving DecidableEq

inductive EndpointClaimResult
  | claimed (lease : EndpointLease)
  | negotiated (requested_port : Nat) (assigned : EndpointLease) (held_by : EndpointLease)
  | conflict (c : EndpointConflict)
  deriving DecidableEq

inductive EndpointEvent
  | rangeExhausted (name owner : String) (requested_port : Nat) (reason : String)
  deriving DecidableEq

inductive EndpointError
  | notFound (name : String)
  | notOwner (name expected_owner attempted_by : String)
  deriving DecidableEq

/-- `EndpointError::code`. -/
def EndpointError.code : EndpointError → String
  | .notFound _ => "not_found"
  | .notOwner _ _ _ => "not_owner"

structure EndpointRegistry where
  leases_by_name : List EndpointLease
  port_range : Nat × Nat
  events : List EndpointEvent
  deriving DecidableEq

/-- Insertion sort (structurally recursive stand-in for the source's
`sort_by`, which Lean's `mergeSort` cannot mirror in kernel reduction). -/
def insertSortedBy {α : Type} (le : α → α → Bool) (a : α) : List α → List α
  | [] => [a]
  | b :: rest => if le a b then a :: b :: rest else b :: insertSortedBy le a rest

def sortBy {α : Type} (le : α → α → Bool) : List α → List α
  | [] => []
  | a :: rest => insertSortedBy le a (sortBy le rest)

/-- `HashMap::insert` keyed by `name`. -/
def insertEndpointLease (ls : List EndpointLease) (l : EndpointLease) : List EndpointLease :=
  if ls.any (fun x => x.name == l.name) then
    ls.map (fun x => if x.name == l.name then l else x)
  else ls ++ [l]

namespace EndpointRegistry

/-- `EndpointRegistry::with_port_range` (the source asserts `start <= end`). -/
def with_port_range (rstart rend : Nat) : EndpointRegistry :=
  ⟨[], (rstart, rend), []⟩

/-- `EndpointRegistry::lease_for_port` (hash-value iteration modelled as
insertion order; unique in reachable states, where at most one lease holds
any port). -/
def lease_for_port (reg : EndpointRegistry) (port : Nat) : Option EndpointLease :=
  reg.leases_by_name.find? (fun l => l.port == port)

/-- `EndpointRegistry::port_in_range`. -/
def port_in_range (reg : EndpointRegistry) (port : Nat) : Bool :=
  decide (reg.port_range.1 ≤ port) && decide (port ≤ reg.port_range.2)

/-- `EndpointRegistry::is_port_free`. -/
def is_port_free (reg : EndpointRegistry) (port : Nat) : Bool :=
  reg.port_in_range port && reg.leases_by_name.all (fun l => l.port != port)

/-- `EndpointRegistry::next_available_port_after`: nothing when the
requested port is out of range, else scan `(requested+1 ..= end)` and then
wrap once through `[start .. requested)`, the requested port excluded. -/
def next_available_port_after (reg : EndpointRegistry) (requested : Nat) : Option Nat :=
  if ! reg.port_in_range requested then none
  else
    let rstart := reg.port_range.1
    let rend := reg.port_range.2
    (List.range' (satAddOne requested) (rend + 1 - satAddOne requested)
      ++ List.range' rstart (requested - rstart)).find?
      (fun candidate => reg.is_port_free candidate)

/-- `EndpointRegistry::claim`.  The source unwraps `lease_for_port` with
`expect` in the negotiation branch; that branch is unreachable with
`lease_for_port` empty (a non-free in-range port is occupied), and the
model returns a conflict there. -/
def claim (reg : EndpointRegistry) (name owner : String) (requested_port : Option Nat) :
    EndpointRegistry × EndpointClaimResult :=
  let requested := requested_port.getD reg.port_range.1
  match reg.leases_by_name.find? (fun l => l.name == name) with
  | some existing =>
    if existing.owner == owner then (reg, .claimed existing)
    else (reg, .conflict ⟨name, requested, some existing⟩)
  | none =>
    if reg.is_port_free requested then
      let lease : EndpointLease := ⟨name, owner, requested⟩
      ({ reg with leases_by_name := insertEndpointLease reg.leases_by_name lease },
       .claimed lease)
    else
      match reg.next_available_port_after requested with
      | some assigned_port =>
        let lease : EndpointLease := ⟨name, owner, assigned_port⟩
        match reg.lease_for_port requested with
        | some held_by =>
          ({ reg with leases_by_name := insertEndpointLease reg.leases_by_name lease },
           .negotiated requested lease held_by)
        | none => (reg, .conflict ⟨name, requested, none⟩)
      | none =>
        ({ reg with events := reg.events ++
            [.rangeExhausted name owner requested "endpoint_range_exhausted"] },
         .conflict ⟨name, requested, reg.lease_for_port requested⟩)

/-- `EndpointRegistry::release`. -/
def release (reg : EndpointRegistry) (name owner : String) :
    Except EndpointError (EndpointRegistry × EndpointLease) :=
  match reg.leases_by_name.find? (fun l => l.name == name) with
  | none => .error (.notFound name)
  | some lease =>
    if lease.owner != owner then
      .error (.notOwner name lease.owner owner)
    else
      .ok ({ reg with
        leases_by_name := reg.leases_by_name.filter (fun l => l.name != name) }, lease)

/-- `EndpointRegistry::list`: leases sorted by name. -/
def list (reg : EndpointRegistry) : List EndpointLease :=
  sortBy (fun a b => decide (a.name ≤ b.name)) reg.leases_by_name

/-- `EndpointRegistry::export_leases`. -/
def export_leases (reg : EndpointRegistry) : List EndpointLease :=
  reg.list

/-- `EndpointRegistry::drain_events`. -/
def drain_events (reg : EndpointRegistry) : EndpointRegistry × List EndpointEvent :=
  ({ reg with events := [] }, reg.events)

end EndpointRegistry

def applyEndpointClaims (reg : EndpointRegistry)
    (cs : List (String × String × Option Nat)) : EndpointRegistry :=
  cs.foldl (fun r c => (r.claim c.1 c.2.1 c.2.2).1) reg

/-! ### Registry invariants -/

theorem forall_of_any_eq_false {α : Type} {p : α → Bool} {l : List α}
    (h : l.any p = false) : ∀ x ∈ l, p x = false := by
  intro x hx
  cases hpx : p x
  · rfl
  · exfalso
    have htrue : l.any p = true := List.any_eq_true.mpr ⟨x, hx, hpx⟩
    rw [h] at htrue
    cases htrue

def portVal : ResourceKey → Nat
  | .port p => p

def keyInRange (rstart rend : Nat) (k : ResourceKey) : Prop :=
  rstart ≤ portVal k ∧ portVal k ≤ rend

instance (rstart rend : Nat) (k : ResourceKey) : Decidable (keyInRange rstart rend k) :=
  inferInstanceAs (Decidable (And _ _))

/-- At most one lease per resource key. -/
def ResourceRegistry.UniqueKeys (reg : ResourceRegistry) : Prop :=
  (reg.leases.map ResourceLease.resource).Nodup

/-- Every leased port lies inside the configured range. -/
def ResourceRegistry.PortsInRange (reg : ResourceRegistry) : Prop :=
  ∀ l ∈ reg.leases, keyInRange reg.port_range.1 reg.port_range.2 l.resource

theorem insertResourceLease_append {ls : List ResourceLease} {l : ResourceLease}
    (h : (ls.any fun x => x.resource == l.resource) = false) :
    insertResourceLease ls l = ls ++ [l] := by
  unfold insertResourceLease
  rw [h]
  rfl

theorem keys_nodup_concat {ls : List ResourceLease} {l : ResourceLease}
    (hnd : (ls.map ResourceLease.resource).Nodup)
    (h : (ls.any fun x => x.resource == l.resource) = false) :
    ((ls ++ [l]).map ResourceLease.resource).Nodup := by
  rw [List.map_append]
  rw [List.nodup_append]
  refine ⟨hnd, List.nodup_singleton _, ?_⟩
  intro k hk hk2
  have hkl : k = l.resource := by simpa using hk2
  obtain ⟨x, hx, hxk⟩ := List.mem_map.mp hk
  have := forall_of_any_eq_false h x hx
  rw [hxk, hkl] at this
  simp at this

theorem next_available_port_after_spec (reg : ResourceRegistry) (r : ResourceKey)
    (k : ResourceKey) (h : reg.next_available_port_after r = some k) :
    reg.leased k = false ∧
    max (satAddOne (portVal r)) reg.port_range.1 ≤ portVal k ∧
    portVal k ≤ reg.port_range.2 := by
  match r with
  | .port requested =>
    simp only [ResourceRegistry.next_available_port_after] at h
    have hmem := List.mem_of_find?_eq_some h
    have hpred := List.find?_some h
    obtain ⟨q, hq, hqk⟩ := List.mem_map.mp hmem
    have hb := List.mem_range'_1.mp hq
    refine ⟨by simpa using hpred, ?_, ?_⟩
    · rw [← hqk]
      exact hb.1
    · rw [← hqk]
      show q ≤ reg.port_range.2
      have h2 := hb.2
      omega

theorem resource_claim_port_range (reg : ResourceRegistry) (r : ResourceKey) (o : String) :
    ((reg.claim r o).1).port_range = reg.port_range := by
  unfold ResourceRegistry.claim
  cases hg : reg.getLease r with
  | some existing =>
    simp only
    by_cases ho : (existing.owner == o) = true
    · rw [if_pos ho]
    · rw [if_neg ho]
      cases hn : reg.next_available_port_after r <;> simp
  | none => simp

theorem resource_claim_keys (reg : ResourceRegistry) (r : ResourceKey) (o : String)
    (h : reg.UniqueKeys) : ((reg.claim r o).1).UniqueKeys := by
  unfold ResourceRegistry.claim
  cases hg : reg.getLease r with
  | some existing =>
    simp only
    by_cases ho : (existing.owner == o) = true
    · rw [if_pos ho]; exact h
    · rw [if_neg ho]
      cases hn : reg.next_available_port_after r with
      | some neg =>
        simp only
        show ((insertResourceLease reg.leases ⟨neg, o⟩).map ResourceLease.resource).Nodup
        have hfree : (reg.leases.any fun x =>
            x.resource == (⟨neg, o⟩ : ResourceLease).resource) = false :=
          (next_available_port_after_spec reg r neg hn).1
        rw [insertResourceLease_append hfree]
        exact keys_nodup_concat h hfree
      | none => exact h
  | none =>
    simp only
    show ((insertResourceLease reg.leases ⟨r, o⟩).map ResourceLease.resource).Nodup
    have hfree : (reg.leases.any fun x => x.resource == r) = false :=
      any_eq_false_of_find?_eq_none hg
    rw [insertResourceLease_append hfree]
    exact keys_nodup_concat h hfree

theorem resource_claim_range (reg : ResourceRegistry) (r : ResourceKey) (o : String)
    (hreq : keyInRange reg.port_range.1 reg.port_range.2 r)
    (h : reg.PortsInRange) : ((reg.claim r o).1).PortsInRange := by
  have hpr := resource_claim_port_range reg r o
  unfold ResourceRegistry.claim at hpr ⊢
  cases hg : reg.getLease r with
  | some existing =>
    simp only
    by_cases ho : (existing.owner == o) = true
    · rw [if_pos ho]; exact h
    · rw [if_neg ho]
      cases hn : reg.next_available_port_after r with
      | some neg =>
        simp only
        intro l hl
        show keyInRange reg.port_range.1 reg.port_range.2 l.resource
        have hfree : (reg.leases.any fun x =>
            x.resource == (⟨neg, o⟩ : ResourceLease).resource) = false :=
          (next_available_port_after_spec reg r neg hn).1
        rw [insertResourceLease_append hfree] at hl
        rcases List.mem_append.mp hl with hmem | hmem
        · exact h l hmem
        · have hleq : l = ⟨neg, o⟩ := by simpa using hmem
          subst hleq
          obtain ⟨_, h1, h2⟩ := next_available_port_after_spec reg r neg hn
          exact ⟨le_trans (le_max_right _ _) h1, h2⟩
      | none =>
        intro l hl
        exact h l hl
  | none =>
    simp only
    intro l hl
    show keyInRange reg.port_range.1 reg.port_range.2 l.resource
    have hfree : (reg.leases.any fun x => x.resource == r) = false :=
      any_eq_false_of_find?_eq_none hg
    rw [insertResourceLease_append hfree] at hl
    rcases List.mem_append.mp hl with hmem | hmem
    · exact h l hmem
    · have hleq : l = ⟨r, o⟩ := by simpa using hmem
      subst hleq
      exact hreq

theorem applyResourceClaims_port_range (reg : ResourceRegistry)
    (cs : List (ResourceKey × String)) :
    (applyResourceClaims reg cs).port_range = reg.port_range := by
  induction cs generalizing reg with
  | nil => rfl
  | cons c cs ih =>
    show (applyResourceClaims ((reg.claim c.1 c.2).1) cs).port_range = _
    rw [ih, resource_claim_port_range]

theorem applyResourceClaims_keys (reg : ResourceRegistry)
    (cs : List (ResourceKey × String)) (h : reg.UniqueKeys) :
    (applyResourceClaims reg cs).UniqueKeys := by
  induction cs generalizing reg with
  | nil => exact h
  | cons c cs ih => exact ih _ (resource_claim_keys reg c.1 c.2 h)

theorem applyResourceClaims_range (reg : ResourceRegistry)
    (cs : List (ResourceKey × String))
    (hreq : ∀ c ∈ cs, keyInRange reg.port_range.1 reg.port_range.2 c.1)
    (h : reg.PortsInRange) : (applyResourceClaims reg cs).PortsInRange := by
  induction cs generalizing reg with
  | nil => exact h
  | cons c cs ih =>
    refine ih _ ?_ (resource_claim_range reg c.1 c.2 (hreq c (List.mem_cons_self c cs)) h)
    intro c2 hc2
    rw [resource_claim_port_range]
    exact hreq c2 (List.mem_cons_of_mem _ hc2)

theorem insertEndpointLease_append {ls : List EndpointLease} {l : EndpointLease}
    (h : (ls.any fun x => x.name == l.name) = false) :
    insertEndpointLease ls l = ls ++ [l] := by
  unfold insertEndpointLease
  rw [h]
  rfl

theorem is_port_free_spec (reg : EndpointRegistry) (p : Nat)
    (h : reg.is_port_free p = true) :
    (reg.port_range.1 ≤ p ∧ p ≤ reg.port_range.2) ∧
    ∀ l ∈ reg.leases_by_name, l.port ≠ p := by
  unfold EndpointRegistry.is_port_free EndpointRegistry.port_in_range at h
  rw [Bool.and_eq_true, Bool.and_eq_true] at h
  obtain ⟨⟨h1, h2⟩, h3⟩ := h
  refine ⟨⟨of_decide_eq_true h1, of_decide_eq_true h2⟩, ?_⟩
  intro l hl
  have := List.all_eq_true.mp h3 l hl
  simpa using this

theorem endpoint_next_available_free (reg : EndpointRegistry) (requested q : Nat)
    (h : reg.next_available_port_after requested = some q) :
    reg.is_port_free q = true := by
  unfold EndpointRegistry.next_available_port_after at h
  by_cases hp : (! reg.port_in_range requested) = true
  · rw [if_pos hp] at h
    cases h
  · rw [if_neg hp] at h
    exact List.find?_some h

theorem endpoint_names_nodup_concat {ls : List EndpointLease} {l : EndpointLease}
    (hnd : (ls.map EndpointLease.name).Nodup)
    (h : (ls.any fun x => x.name == l.name) = false) :
    ((ls ++ [l]).map EndpointLease.name).Nodup := by
  rw [List.map_append, List.nodup_append]
  refine ⟨hnd, List.nodup_singleton _, ?_⟩
  intro k hk hk2
  have hkl : k = l.name := by simpa using hk2
  obtain ⟨x, hx, hxk⟩ := List.mem_map.mp hk
  have := forall_of_any_eq_false h x hx
  rw [hxk, hkl] at this
  simp at this

theorem endpoint_ports_nodup_concat {ls : List EndpointLease} {l : EndpointLease}
    (hnd : (ls.map EndpointLease.port).Nodup)
    (h : ∀ x ∈ ls, x.port ≠ l.port) :
    ((ls ++ [l]).map EndpointLease.port).Nodup := by
  rw [List.map_append, List.nodup_append]
  refine ⟨hnd, List.nodup_singleton _, ?_⟩
  intro k hk hk2
  have hkl : k = l.port := by simpa using hk2
  obtain ⟨x, hx, hxk⟩ := List.mem_map.mp hk
  exact h x hx (by rw [hxk, hkl])

/-- The endpoint registry invariant: names unique, ports unique, every
leased port inside the configured range. -/
def EndpointRegistry.Inv (reg : EndpointRegistry) : Prop :=
  (reg.leases_by_name.map EndpointLease.name).Nodup ∧
  (reg.leases_by_name.map EndpointLease.port).Nodup ∧
  ∀ l ∈ reg.leases_by_name, reg.port_range.1 ≤ l.port ∧ l.port ≤ reg.port_range.2

theorem endpoint_claim_port_range (reg : EndpointRegistry) (n o : String)
    (p : Option Nat) : ((reg.claim n o p).1).port_range = reg.port_range := by
  unfold EndpointRegistry.claim
  simp only
  cases hf : reg.leases_by_name.find? (fun l => l.name == n) with
  | some existing =>
    simp only
    by_cases ho : (existing.owner == o) = true
    · rw [if_pos ho]
    · rw [if_neg ho]
  | none =>
    simp only
    by_cases hfree : reg.is_port_free (p.getD reg.port_range.1) = true
    · rw [if_pos hfree]
    · rw [if_neg hfree]
      cases hna : reg.next_available_port_after (p.getD reg.port_range.1) with
      | some q =>
        simp only
        cases hlp : reg.lease_for_port (p.getD reg.port_range.1) <;> simp
      | none => simp

theorem endpoint_claim_inv (reg : EndpointRegistry) (n o : String) (p : Option Nat)
    (h : reg.Inv) : ((reg.claim n o p).1).Inv := by
  obtain ⟨hn, hp, hr⟩ := h
  unfold EndpointRegistry.claim
  simp only
  cases hf : reg.leases_by_name.find? (fun l => l.name == n) with
  | some existing =>
    simp only
    by_cases ho : (existing.owner == o) = true
    · rw [if_pos ho]
      exact ⟨hn, hp, hr⟩
    · rw [if_neg ho]
      exact ⟨hn, hp, hr⟩
  | none =>
    simp only
    have hnamefree : (reg.leases_by_name.any fun x =>
        x.name == (⟨n, o, p.getD reg.port_range.1⟩ : EndpointLease).name) = false :=
      any_eq_false_of_find?_eq_none hf
    by_cases hfree : reg.is_port_free (p.getD reg.port_range.1) = true
    · rw [if_pos hfree]
      obtain ⟨⟨hlo, hhi⟩, hdistinct⟩ := is_port_free_spec reg _ hfree
      refine ⟨?_, ?_, ?_⟩
      · show ((insertEndpointLease reg.leases_by_name _).map EndpointLease.name).Nodup
        rw [insertEndpointLease_append hnamefree]
        exact endpoint_names_nodup_concat hn hnamefree
      · show ((insertEndpointLease reg.leases_by_name _).map EndpointLease.port).Nodup
        rw [insertEndpointLease_append hnamefree]
        exact endpoint_ports_nodup_concat hp hdistinct
      · intro l hl
        show reg.port_range.1 ≤ l.port ∧ l.port ≤ reg.port_range.2
        rw [insertEndpointLease_append hnamefree] at hl
        rcases List.mem_append.mp hl with hmem | hmem
        · exact hr l hmem
        · have hleq : l = ⟨n, o, p.getD reg.port_range.1⟩ := by simpa using hmem
          subst hleq
          exact ⟨hlo, hhi⟩
    · rw [if_neg hfree]
      cases hna : reg.next_available_port_after (p.getD reg.port_range.1) with
      | some q =>
        simp only
        cases hlp : reg.lease_for_port (p.getD reg.port_range.1) with
        | some held =>
          have hnamefree2 : (reg.leases_by_name.any fun x =>
              x.name == (⟨n, o, q⟩ : EndpointLease).name) = false :=
            any_eq_false_of_find?_eq_none hf
          obtain ⟨⟨hlo, hhi⟩, hdistinct⟩ :=
            is_port_free_spec reg q (endpoint_next_available_free reg _ q hna)
          refine ⟨?_, ?_, ?_⟩
          · show ((insertEndpointLease reg.leases_by_name _).map EndpointLease.name).Nodup
            rw [insertEndpointLease_append hnamefree2]
            exact endpoint_names_nodup_concat hn hnamefree2
          · show ((insertEndpointLease reg.leases_by_name _).map EndpointLease.port).Nodup
            rw [insertEndpointLease_append hnamefree2]
            exact endpoint_ports_nodup_concat hp hdistinct
          · intro l hl
            show reg.port_range.1 ≤ l.port ∧ l.port ≤ reg.port_range.2
            rw [insertEndpointLease_append hnamefree2] at hl
            rcases List.mem_append.mp hl with hmem | hmem
            · exact hr l hmem
            · have hleq : l = ⟨n, o, q⟩ := by simpa using hmem
              subst hleq
              exact ⟨hlo, hhi⟩
        | none => exact ⟨hn, hp, hr⟩
      | none => exact ⟨hn, hp, hr⟩

theorem applyEndpointClaims_port_range (reg : EndpointRegistry)
    (cs : List (String × String × Option Nat)) :
    (applyEndpointClaims reg cs).port_range = reg.port_range := by
  induction cs generalizing reg with
  | nil => rfl
  | cons c cs ih =>
    show (applyEndpointClaims ((reg.claim c.1 c.2.1 c.2.2).1) cs).port_range = _
    rw [ih, endpoint_claim_port_range]

theorem applyEndpointClaims_inv (reg : EndpointRegistry)
    (cs : List (String × String × Option Nat)) (h : reg.Inv) :
    (applyEndpointClaims reg cs).Inv := by
  induction cs generalizing reg with
  | nil => exact h
  | cons c cs ih => exact ih _ (endpoint_claim_inv reg c.1 c.2.1 c.2.2 h)

/-- C4 (amended): after any claim sequence against a fresh registry, the
lease maps hold at most one lease per key — per `ResourceKey`, per endpoint
name and per endpoint port — and every endpoint lease port lies in
`[start, end]`; resource lease ports lie in `[start, end]` provided every
requested port does.  The original claim fails for the resource registry:
a request for a free out-of-range port is granted as-is. -/
theorem claim_sequences_lease_invariants (rstart rend : Nat)
    (rcs : List (ResourceKey × String)) (ecs : List (String × String × Option Nat)) :
    ((applyResourceClaims (ResourceRegistry.with_port_range rstart rend) rcs).UniqueKeys ∧
     ((∀ c ∈ rcs, keyInRange rstart rend c.1) →
       ∀ l ∈ (applyResourceClaims (ResourceRegistry.with_port_range rstart rend) rcs).leases,
         keyInRange rstart rend l.resource)) ∧
    (((applyEndpointClaims (EndpointRegistry.with_port_range rstart rend)
        ecs).leases_by_name.map EndpointLease.name).Nodup ∧
     ((applyEndpointClaims (EndpointRegistry.with_port_range rstart rend)
        ecs).leases_by_name.map EndpointLease.port).Nodup ∧
     ∀ l ∈ (applyEndpointClaims (EndpointRegistry.with_port_range rstart rend)
        ecs).leases_by_name, rstart ≤ l.port ∧ l.port ≤ rend) := by
  constructor
  · constructor
    · exact applyResourceClaims_keys _ rcs List.nodup_nil
    · intro hreq l hl
      have hrange := applyResourceClaims_range (ResourceRegistry.with_port_range rstart rend)
        rcs hreq (fun _ hmem => absurd hmem (List.not_mem_nil _))
      have := hrange l hl
      rwa [applyResourceClaims_port_range] at this
  · have hinv := applyEndpointClaims_inv (EndpointRegistry.with_port_range rstart rend) ecs
      ⟨List.nodup_nil, List.nodup_nil, fun _ hmem => absurd hmem (List.not_mem_nil _)⟩
    obtain ⟨h1, h2, h3⟩ := hinv
    refine ⟨h1, h2, ?_⟩
    intro l hl
    have := h3 l hl
    rwa [applyEndpointClaims_port_range] at this

/-- Witness for C4 at a concrete input: two contending claims in range
3000-3001 and one endpoint claim; keys unique and all ports in range. -/
theorem claim_sequences_lease_invariants_witness :
    (applyResourceClaims (ResourceRegistry.with_port_range 3000 3001)
      [(.port 3000, "a"), (.port 3000, "b")]).UniqueKeys ∧
    keyInRange 3000 3001
      (ResourceLease.resource ⟨.port 3001, "b"⟩) := by
  refine ⟨(claim_sequences_lease_invariants 3000 3001
    [(.port 3000, "a"), (.port 3000, "b")] [("api", "a", some 3000)]).1.1, ?_⟩
  exact (claim_sequences_lease_invariants 3000 3001
    [(.port 3000, "a"), (.port 3000, "b")] [("api", "a", some 3000)]).1.2
    (by decide) ⟨.port 3001, "b"⟩ (by decide)

/-- Counterexample to C4 as stated: a fresh resource registry with range
10-12 grants a claim for the free out-of-range port 99 verbatim, so a
leased port lies outside the configured range. -/
theorem claim_out_of_range_counterexample :
    ((ResourceRegistry.with_port_range 10 12).claim (.port 99) "a").1.leases
      = [⟨.port 99, "a"⟩] ∧
    ((ResourceRegistry.with_port_range 10 12).claim (.port 99) "a").2
      = .claimed ⟨.port 99, "a"⟩ ∧
    ¬keyInRange 10 12 (.port 99) := by
  refine ⟨rfl, rfl, ?_⟩
  intro h
  exact absurd h.2 (by decide)

/-! ### Negotiation order (claims C7, C8) -/

theorem find?_range'_le {p : Nat → Bool} {s n a : Nat}
    (h : (List.range' s n).find? p = some a) :
    ∀ b ∈ List.range' s n, p b = true → a ≤ b := by
  induction n generalizing s with
  | zero => cases h
  | succ n ih =>
    rw [List.range'_succ] at h ⊢
    intro b hb hpb
    cases hps : p s with
    | true =>
      have ha : a = s := by
        rw [List.find?_cons, hps] at h
        exact (Option.some_injective _ h).symm
      rcases List.mem_cons.mp hb with hbs | hbm
      · rw [ha, hbs]
      · have := (List.mem_range'_1.mp hbm).1
        omega
    | false =>
      rw [List.find?_cons, hps] at h
      rcases List.mem_cons.mp hb with hbs | hbm
      · rw [hbs] at hpb
        rw [hpb] at hps
        cases hps
      · exact ih h b hbm hpb

/-- C7 (amended): when `claim(Port(p), o)` finds the port held by another
owner it searches only `(max(p+1, start) ..= end)` — strictly greater
ports clamped to the range start, with no wrap-around below `p` — and
leases the lowest unleased port of that interval, returning
`Negotiated{requested, assigned, held_by}`; the claim as stated (search
set `(p+1 ..= end)`) fails when `p + 1 < start`.  Determinism over a fixed
claim sequence holds because `claim` is a function of the registry state. -/
theorem resource_negotiation_lowest (reg : ResourceRegistry) (p : Nat) (o : String)
    (existing : ResourceLease) (qv : Nat)
    (hheld : reg.getLease (.port p) = some existing)
    (howner : (existing.owner == o) = false)
    (hq : reg.next_available_port_after (.port p) = some (.port qv)) :
    reg.claim (.port p) o =
      ({ reg with leases := insertResourceLease reg.leases ⟨.port qv, o⟩ },
       .negotiated (.port p) ⟨.port qv, o⟩ existing) ∧
    reg.leased (.port qv) = false ∧
    max (satAddOne p) reg.port_range.1 ≤ qv ∧ qv ≤ reg.port_range.2 ∧
    (∀ b : Nat, max (satAddOne p) reg.port_range.1 ≤ b → b ≤ reg.port_range.2 →
      reg.leased (.port b) = false → qv ≤ b) := by
  obtain ⟨hfree, hlo, hhi⟩ := next_available_port_after_spec reg (.port p) (.port qv) hq
  refine ⟨?_, hfree, hlo, hhi, ?_⟩
  · unfold ResourceRegistry.claim
    rw [hheld]
    simp [howner, hq]
  · intro b hb1 hb2 hbfree
    simp only [ResourceRegistry.next_available_port_after] at hq
    have hq2 : ((List.range' (max (satAddOne p) reg.port_range.1)
        (reg.port_range.2 + 1 - max (satAddOne p) reg.port_range.1)).find?
        (fun v => ! reg.leased (.port v))) = some qv := by
      rw [List.find?_map] at hq
      cases hfind : (List.range' (max (satAddOne p) reg.port_range.1)
          (reg.port_range.2 + 1 - max (satAddOne p) reg.port_range.1)).find?
          ((fun candidate => ! reg.leased candidate) ∘ ResourceKey.port) with
      | none => rw [hfind] at hq; cases hq
      | some v =>
        rw [hfind] at hq
        have : ResourceKey.port v = ResourceKey.port qv := Option.some_injective _ hq
        cases this
        exact hfind
    have hbmem : b ∈ List.range' (max (satAddOne p) reg.port_range.1)
        (reg.port_range.2 + 1 - max (satAddOne p) reg.port_range.1) := by
      apply List.mem_range'_1.mpr
      constructor
      · exact hb1
      · omega
    exact find?_range'_le hq2 b hbmem (by rw [hbfree]; rfl)

/-- Witness for C7: range 3000-3001, port 3000 held by `a`; a claim by `b`
negotiates the lowest strictly-greater in-range free port 3001. -/
theorem resource_negotiation_lowest_witness :
    (((ResourceRegistry.with_port_range 3000 3001).claim (.port 3000) "a").1.claim
        (.port 3000) "b").2
      = .negotiated (.port 3000) ⟨.port 3001, "b"⟩ ⟨.port 3000, "a"⟩ ∧
    (3001 : Nat) ≤ 3001 := by
  constructor
  · have h := (resource_negotiation_lowest
      (((ResourceRegistry.with_port_range 3000 3001).claim (.port 3000) "a").1)
      3000 "b" ⟨.port 3000, "a"⟩ 3001 (by decide) (by decide) (by decide)).1
    rw [h]
  · have h := (resource_negotiation_lowest
      (((ResourceRegistry.with_port_range 3000 3001).claim (.port 3000) "a").1)
      3000 "b" ⟨.port 3000, "a"⟩ 3001 (by decide) (by decide) (by decide)).2.2.2.2
    exact h 3001 (by decide) (by decide) (by decide)

/-- Counterexample to C7 as stated: with range 10-12 and port 3 held by
`a`, a claim by `b` is assigned port 10, although port 4 is unleased,
strictly greater than 3 and not above the range end — the search is
clamped to the range start, not `(requested+1 ..= end)`. -/
theorem resource_negotiation_clamped_counterexample :
    ((((ResourceRegistry.with_port_range 10 12).claim (.port 3) "a").1).claim
        (.port 3) "b").2
      = .negotiated (.port 3) ⟨.port 10, "b"⟩ ⟨.port 3, "a"⟩ ∧
    (((ResourceRegistry.with_port_range 10 12).claim (.port 3) "a").1).leased (.port 4)
      = false ∧
    (3 : Nat) < 4 ∧ (4 : Nat) ≤ 12 ∧ (4 : Nat) < 10 := by
  decide

/-- C9: claiming a name that is already leased to a different owner
returns `Conflict{name, requested_port, held_by = existing}` immediately:
no alternative port is negotiated, no event is queued, and the registry
(leases and events alike) is unchanged. -/
theorem endpoint_name_conflict_no_negotiation (reg : EndpointRegistry)
    (n o : String) (p : Option Nat) (existing : EndpointLease)
    (hf : reg.leases_by_name.find? (fun l => l.name == n) = some existing)
    (ho : (existing.owner == o) = false) :
    reg.claim n o p = (reg, .conflict ⟨n, p.getD reg.port_range.1, some existing⟩) := by
  unfold EndpointRegistry.claim
  rw [hf]
  simp [ho]

/-- Witness for C9: `api` held by `a`; a claim by `b` conflicts without
negotiation and leaves the registry untouched. -/
theorem endpoint_name_conflict_no_negotiation_witness :
    (((EndpointRegistry.with_port_range 4100 4103).claim "api" "a" (some 4100)).1.claim
        "api" "b" (some 4101))
      = (((EndpointRegistry.with_port_range 4100 4103).claim "api" "a" (some 4100)).1,
         .conflict ⟨"api", 4101, some ⟨"api", "a", 4100⟩⟩) :=
  endpoint_name_conflict_no_negotiation
    (((EndpointRegistry.with_port_range 4100 4103).claim "api" "a" (some 4100)).1)
    "api" "b" (some 4101) ⟨"api", "a", 4100⟩ (by decide) (by decide)

/-- C8: claiming an unknown name whose requested port is occupied (in a
state whose leased ports all lie in range, as every claim-reachable state
does) assigns the first free port of the scan `(requested+1 ..= end)`
followed by a single wrap through `[start .. requested)` — the requested
port itself excluded — and returns `Negotiated` whose `held_by` is the
lease occupying the requested port. -/
theorem endpoint_negotiation_scan (reg : EndpointRegistry) (n o : String)
    (requested q : Nat) (held : EndpointLease)
    (hr : ∀ l ∈ reg.leases_by_name, reg.port_range.1 ≤ l.port ∧ l.port ≤ reg.port_range.2)
    (hf : reg.leases_by_name.find? (fun l => l.name == n) = none)
    (hheld : reg.lease_for_port requested = some held)
    (hscan : ((List.range' (satAddOne requested)
          (reg.port_range.2 + 1 - satAddOne requested)
        ++ List.range' reg.port_range.1 (requested - reg.port_range.1)).find?
        (fun c => reg.is_port_free c)) = some q) :
    reg.claim n o (some requested) =
      ({ reg with leases_by_name := insertEndpointLease reg.leases_by_name ⟨n, o, q⟩ },
       .negotiated requested ⟨n, o, q⟩ held) := by
  have hheld2 : reg.leases_by_name.find? (fun l => l.port == requested) = some held := hheld
  have hpheld := List.find?_some hheld2
  have hmem : held ∈ reg.leases_by_name := List.mem_of_find?_eq_some hheld2
  have hreq_eq : held.port = requested := by simpa using hpheld
  have hb := hr held hmem
  rw [hreq_eq] at hb
  have hin : reg.port_in_range requested = true := by
    unfold EndpointRegistry.port_in_range
    rw [Bool.and_eq_true]
    exact ⟨decide_eq_true hb.1, decide_eq_true hb.2⟩
  have hnotfree : reg.is_port_free requested = false := by
    cases hfree : reg.is_port_free requested with
    | false => rfl
    | true =>
      exact absurd hreq_eq ((is_port_free_spec reg requested hfree).2 held hmem)
  have hna : reg.next_available_port_after requested = some q := by
    unfold EndpointRegistry.next_available_port_after
    rw [hin]
    simp only [Bool.not_true]
    rw [if_neg Bool.false_ne_true]
    exact hscan
  unfold EndpointRegistry.claim
  simp [hf, hnotfree, hna, hheld]

/-- Witness for C8, the end-to-end determinism scenario of spec section 8:
range 4100-4103, `alpha/a/4101` then `bravo/b/4102` claimed; a claim
`charlie/c/4101` is assigned port 4103 and held_by is alpha's lease. -/
theorem endpoint_negotiation_scan_witness :
    ((((EndpointRegistry.with_port_range 4100 4103).claim "alpha" "a" (some 4101)).1.claim
        "bravo" "b" (some 4102)).1.claim "charlie" "c" (some 4101)).2
      = .negotiated 4101 ⟨"charlie", "c", 4103⟩ ⟨"alpha", "a", 4101⟩ := by
  have h := endpoint_negotiation_scan
    ((((EndpointRegistry.with_port_range 4100 4103).claim "alpha" "a" (some 4101)).1.claim
        "bravo" "b" (some 4102)).1)
    "charlie" "c" 4101 4103 ⟨"alpha", "a", 4101⟩
    (by decide) (by decide) (by decide) (by decide)
  rw [h]

/-! ## Daemon (stead-daemon/src/lib.rs)

The daemon source in the tree carries the Health/contract/resource arms;
its endpoint arms are exercised by the crate's tests
(`tests/endpoint_api.rs`, `tests/endpoint_events.rs`) but their
implementation is not present, so those arms are modelled from the spec
(§4.5).  Handlers are synchronous and locking vanishes in this
single-threaded embedding; effects that leave the daemon state (lease
file writes, event publication) are additionally recorded in an ordered
effect trace so that ordering claims can be stated. -/

/-- Modelled from the spec: the `endpointRangeExhausted` kind is listed in
§6 and used by the daemon tests but missing from the daemon source's
`DaemonEventKind`; the other three kinds are translated from the source. -/
inductive DaemonEventKind
  | contractCreated (id : String)
  | contractTransitioned (id : String) (fromStatus toStatus : ContractStatus)
  | resourceConflictEscalated (resource : ResourceKey)
      (requested_by held_by reason : String)
  | endpointRangeExhausted (name owner : String) (requested_port : Nat) (reason : String)
  deriving DecidableEq

structure DaemonEvent where
  cursor : Nat
  kind : DaemonEventKind
  deriving DecidableEq

/-- The daemon event-bus state behind its mutex; a subscriber channel is
modelled as the list of events it has received (channel failure, which the
source handles by dropping the subscriber, has no counterpart here). -/
structure EventState where
  next_cursor : Nat
  history : List DaemonEvent
  subscribers : List (List DaemonEvent)
  deriving DecidableEq

/-- `Daemon::publish`: bump the cursor, append to history, send to every
subscriber. -/
def EventState.publish (es : EventState) (kind : DaemonEventKind) :
    EventState × DaemonEvent :=
  let cursor := es.next_cursor + 1
  let event : DaemonEvent := ⟨cursor, kind⟩
  (⟨cursor, es.history ++ [event], es.subscribers.map (fun inbox => inbox ++ [event])⟩,
   event)

def publishAll (es : EventState) : List DaemonEventKind → EventState × List DaemonEvent
  | [] => (es, [])
  | k :: ks =>
    let step := es.publish k
    let rest := publishAll step.1 ks
    (rest.1, step.2 :: rest.2)

structure ApiError where
  code : String
  message : String
  deriving DecidableEq

structure AttentionCounts where
  needs_decision : Nat
  anomaly : Nat
  completed : Nat
  running : Nat
  queued : Nat
  deriving DecidableEq

/-- Modelled from the spec: the `claimEndpoint`, `listEndpoints` and
`releaseEndpoint` request variants (§4.5) are used by the daemon tests but
missing from the daemon source's `ApiRequest`; the rest is translated from
the source. -/
inductive ApiRequest
  | health
  | createContract (id : String) (blocked_by : List String)
  | listContracts
  | attentionStatus
  | transitionContract (id : String) (target : ContractStatus)
  | getContract (id : String)
  | claimResource (resource : ResourceKey) (owner : String)
  | claimEndpoint (name owner : String) (port : Option Nat)
  | listEndpoints
  | releaseEndpoint (name owner : String)
  deriving DecidableEq

/-- Modelled from the spec: the `endpointClaim`, `endpoints` and
`endpointReleased` response variants (§4.5) are used by the daemon tests
but missing from the daemon source's `ApiResponse`; the rest is translated
from the source. -/
inductive ApiResponse
  | health (status : String)
  | contractState (c : Contract)
  | contracts (cs : List Contract)
  | attention (counts : AttentionCounts)
  | resourceClaim (result : ClaimResult)
  | endpointClaim (result : EndpointClaimResult)
  | endpoints (leases : List EndpointLease)
  | endpointReleased (lease : EndpointLease)
  deriving DecidableEq

structure ApiEnvelope (T : Type) where
  version : String
  data : T
  deriving DecidableEq

inductive AttentionTier
  | needsDecision
  | anomaly
  | completed
  | running
  | queued
  deriving DecidableEq

namespace DBState

/-- `SqliteContractStore::list_contracts` (ORDER BY id ASC). -/
def list_contracts (db : DBState) : List Contract :=
  sortBy (fun a b => decide (a.id ≤ b.id)) db.contracts

/-- `SqliteContractStore::list_by_attention_tier`: DISTINCT rows of the
NeedsDecision join, status filters for the other tiers, ordered by id. -/
def list_by_attention_tier (db : DBState) (tier : AttentionTier) : List Contract :=
  match tier with
  | .needsDecision =>
    sortBy (fun a b => decide (a.id ≤ b.id))
      ((db.contracts.filter (fun c => db.decisions.any
        (fun d => (!d.resolved) && d.contract_id == c.id))).eraseDups)
  | .anomaly =>
    sortBy (fun a b => decide (a.id ≤ b.id))
      (db.contracts.filter (fun c => c.status == .failed || c.status == .rollingBack ||
        c.status == .rolledBack))
  | .completed =>
    sortBy (fun a b => decide (a.id ≤ b.id))
      (db.contracts.filter (fun c => c.status == .completed))
  | .running =>
    sortBy (fun a b => decide (a.id ≤ b.id))
      (db.contracts.filter (fun c => c.status == .executing ||
        c.status == .verifying))
  | .queued =>
    sortBy (fun a b => decide (a.id ≤ b.id))
      (db.contracts.filter (fun c => c.status == .pending || c.status == .ready ||
        c.status == .claimed))

end DBState

/-- The side effects a handler performs, in execution order. -/
inductive DaemonEffect
  | persistResources (leases : List ResourceLease)
  | persistEndpoints (leases : List EndpointLease)
  | published (e : DaemonEvent)
  deriving DecidableEq

structure DaemonState where
  db : DBState
  resources : ResourceRegistry
  endpoints : EndpointRegistry
  resourcesFile : List ResourceLease
  endpointsFile : List EndpointLease
  events : EventState
  deriving DecidableEq

/-- A daemon freshly constructed over an empty workspace
(`Daemon::with_port_range` plus the spec's endpoint registry). -/
def DaemonState.fresh (rstart rend estart eend : Nat) : DaemonState :=
  ⟨emptyDB, ResourceRegistry.with_port_range rstart rend,
   EndpointRegistry.with_port_range estart eend, [], [], ⟨0, [], []⟩⟩

def resourceEventKind : ResourceEvent → DaemonEventKind
  | .conflictEscalated requested requested_by held_by reason =>
    .resourceConflictEscalated requested requested_by held_by reason

def endpointEventKind : EndpointEvent → DaemonEventKind
  | .rangeExhausted name owner requested_port reason =>
    .endpointRangeExhausted name owner requested_port reason

/-- `Daemon::handle`.  The Health/contract/resource arms are translated
from the source (error messages abbreviated; error codes exact).
Modelled from the spec: the three endpoint arms follow §4.5 — claim
against the endpoint registry, drain events, persist the full lease set,
then publish; range exhaustion surfaces as the `endpoint_range_exhausted`
error after the event is published, as the daemon tests require. -/
def Daemon.handle (st : DaemonState) (req : ApiRequest) :
    DaemonState × List DaemonEffect × Except ApiError ApiResponse :=
  match req with
  | .health => (st, [], .ok (.health "ok"))
  | .createContract id blocked_by =>
    let contract := Contract.new id blocked_by
    let db2 := st.db.save_contract contract
    let pub := st.events.publish (.contractCreated id)
    ({ st with db := db2, events := pub.1 },
     [.published pub.2], .ok (.contractState contract))
  | .listContracts => (st, [], .ok (.contracts st.db.list_contracts))
  | .attentionStatus =>
    (st, [], .ok (.attention
      ⟨(st.db.list_by_attention_tier .needsDecision).length,
       (st.db.list_by_attention_tier .anomaly).length,
       (st.db.list_by_attention_tier .completed).length,
       (st.db.list_by_attention_tier .running).length,
       (st.db.list_by_attention_tier .queued).length⟩))
  | .transitionContract id target =>
    match st.db.load_contract id with
    | none => (st, [], .error ⟨"not_found", "contract not found: " ++ id⟩)
    | some contract =>
      match contract.transition_to target with
      | .error _ => (st, [], .error ⟨"invalid_transition", "invalid transition"⟩)
      | .ok updated =>
        match st.db.record_transition updated.1 updated.2 with
        | (db2, some _) =>
          ({ st with db := db2 }, [], .error ⟨"storage_error", "storage error"⟩)
        | (db2, none) =>
          let pub := st.events.publish (.contractTransitioned
            updated.2.contract_id updated.2.fromStatus updated.2.toStatus)
          ({ st with db := db2, events := pub.1 },
           [.published pub.2], .ok (.contractState updated.1))
  | .getContract id =>
    match st.db.load_contract id with
    | none => (st, [], .error ⟨"not_found", "contract not found: " ++ id⟩)
    | some contract => (st, [], .ok (.contractState contract))
  | .claimResource resource owner =>
    let step := st.resources.claim resource owner
    let drained := step.1.drain_events
    let leases := drained.1.export_leases
    let pubs := publishAll st.events (drained.2.map resourceEventKind)
    ({ st with resources := drained.1, resourcesFile := leases, events := pubs.1 },
     .persistResources leases :: pubs.2.map DaemonEffect.published,
     .ok (.resourceClaim step.2))
  | .claimEndpoint name owner port =>
    let step := st.endpoints.claim name owner port
    let drained := step.1.drain_events
    let leases := drained.1.export_leases
    let pubs := publishAll st.events (drained.2.map endpointEventKind)
    let st2 : DaemonState :=
      { st with endpoints := drained.1, endpointsFile := leases, events := pubs.1 }
    let effects := DaemonEffect.persistEndpoints leases
      :: pubs.2.map DaemonEffect.published
    match step.2 with
    | .conflict c =>
      if drained.2.isEmpty then (st2, effects, .ok (.endpointClaim (.conflict c)))
      else (st2, effects, .error ⟨"endpoint_range_exhausted", "endpoint range exhausted"⟩)
    | result => (st2, effects, .ok (.endpointClaim result))
  | .listEndpoints => (st, [], .ok (.endpoints st.endpoints.list))
  | .releaseEndpoint name owner =>
    match st.endpoints.release name owner with
    | .error e => (st, [], .error ⟨e.code, "release failed"⟩)
    | .ok released =>
      let leases := released.1.export_leases
      ({ st with endpoints := released.1, endpointsFile := leases },
       [.persistEndpoints leases], .ok (.endpointReleased released.2))

/-- The versioned envelope: every successful response is wrapped
`{version:"v1", data}`. -/
def Daemon.handleEnvelope (st : DaemonState) (req : ApiRequest) :
    DaemonState × List DaemonEffect × Except ApiError (ApiEnvelope ApiResponse) :=
  let r := Daemon.handle st req
  (r.1, r.2.1, r.2.2.map (fun d => ⟨"v1", d⟩))

/-! ### Event-bus discipline (claim C5) -/

/-- The event bus is well formed: the stored cursor equals the history
length and the history's cursors are exactly 1, 2, ..., n in order. -/
def EventState.Wf (es : EventState) : Prop :=
  es.next_cursor = es.history.length ∧
  es.history.map DaemonEvent.cursor = List.range' 1 es.history.length

theorem publish_wf (es : EventState) (k : DaemonEventKind) (h : es.Wf) :
    ((es.publish k).1).Wf := by
  obtain ⟨h1, h2⟩ := h
  constructor
  · show es.next_cursor + 1
      = (es.history ++ [(⟨es.next_cursor + 1, k⟩ : DaemonEvent)]).length
    simp [h1]
  · show (es.history ++ [(⟨es.next_cursor + 1, k⟩ : DaemonEvent)]).map DaemonEvent.cursor
      = List.range' 1 ((es.history ++ [(⟨es.next_cursor + 1, k⟩ : DaemonEvent)]).length)
    rw [List.map_append, List.length_append, h2, h1]
    simp [List.range'_1_concat, Nat.add_comm]

theorem publishAll_wf (es : EventState) (ks : List DaemonEventKind) (h : es.Wf) :
    ((publishAll es ks).1).Wf := by
  induction ks generalizing es with
  | nil => exact h
  | cons k ks ih => exact ih _ (publish_wf es k h)

theorem publishAll_nil (es : EventState) : publishAll es [] = (es, []) := rfl

theorem resource_claim_events_nonconflict (reg : ResourceRegistry) (r : ResourceKey)
    (o : String) (h : ∀ c, (reg.claim r o).2 ≠ .conflict c) :
    ((reg.claim r o).1).events = reg.events := by
  unfold ResourceRegistry.claim at h ⊢
  cases hg : reg.getLease r with
  | some existing =>
    rw [hg] at h
    simp only at h ⊢
    by_cases ho : (existing.owner == o) = true
    · rw [if_pos ho]
    · rw [if_neg ho] at h ⊢
      cases hn : reg.next_available_port_after r with
      | some neg => rfl
      | none =>
        rw [hn] at h
        exact absurd rfl (h ⟨r, existing⟩)
  | none => rfl

theorem resource_claim_events_conflict (reg : ResourceRegistry) (r : ResourceKey)
    (o : String) (c : ResourceConflict) (h : (reg.claim r o).2 = .conflict c) :
    ((reg.claim r o).1).events
      = reg.events ++ [.conflictEscalated r o c.held_by.owner "port_range_exhausted"] := by
  unfold ResourceRegistry.claim at h ⊢
  cases hg : reg.getLease r with
  | some existing =>
    rw [hg] at h
    simp only at h ⊢
    by_cases ho : (existing.owner == o) = true
    · rw [if_pos ho] at h
      cases h
    · rw [if_neg ho] at h ⊢
      cases hn : reg.next_available_port_after r with
      | some neg =>
        rw [hn] at h
        cases h
      | none =>
        rw [hn] at h
        have hc : c = ⟨r, existing⟩ := by
          cases h
          rfl
        rw [hc]
  | none =>
    rw [hg] at h
    simp at h

/-- Arbitration escalates an endpoint claim exactly under this condition:
the name is unleased, the requested port is not free, and no alternative
port is available — the branch of `EndpointRegistry::claim` that queues a
`RangeExhausted` event. -/
def EndpointRegistry.rangeExhaustedOn (reg : EndpointRegistry) (n : String)
    (requested : Nat) : Prop :=
  reg.leases_by_name.find? (fun l => l.name == n) = none ∧
  reg.is_port_free requested = false ∧
  reg.next_available_port_after requested = none

instance (reg : EndpointRegistry) (n : String) (requested : Nat) :
    Decidable (reg.rangeExhaustedOn n requested) :=
  inferInstanceAs (Decidable (And _ (And _ _)))

/-- An endpoint claim queues exactly one `RangeExhausted` event when
arbitration escalates, and queues nothing otherwise. -/
theorem endpoint_claim_events_exact (reg : EndpointRegistry) (n o : String)
    (p : Option Nat) :
    (reg.rangeExhaustedOn n (p.getD reg.port_range.1) →
      ((reg.claim n o p).1).events = reg.events ++
        [.rangeExhausted n o (p.getD reg.port_range.1) "endpoint_range_exhausted"]) ∧
    (¬ reg.rangeExhaustedOn n (p.getD reg.port_range.1) →
      ((reg.claim n o p).1).events = reg.events) := by
  constructor
  · rintro ⟨h1, h2, h3⟩
    simp only [EndpointRegistry.claim]
    rw [h1]
    simp only
    rw [h2, if_neg Bool.false_ne_true, h3]
  · intro hne
    simp only [EndpointRegistry.claim]
    cases hf : reg.leases_by_name.find? (fun l => l.name == n) with
    | some existing =>
      simp only
      by_cases ho : (existing.owner == o) = true
      · rw [if_pos ho]
      · rw [if_neg ho]
    | none =>
      simp only
      by_cases hfree : reg.is_port_free (p.getD reg.port_range.1) = true
      · rw [if_pos hfree]
      · rw [if_neg hfree]
        cases hna : reg.next_available_port_after (p.getD reg.port_range.1) with
        | some q =>
          simp only
          cases hlp : reg.lease_for_port (p.getD reg.port_range.1) with
          | some held => rfl
          | none => rfl
        | none =>
          exact absurd ⟨hf, Bool.eq_false_iff.mpr hfree, hna⟩ hne

/-- C5 (amended): a successful CreateContract or TransitionContract bumps
`next_cursor` by exactly one and appends exactly one event; a ClaimResource
(or, spec-modelled, ClaimEndpoint) from a drained registry publishes one
event exactly when arbitration escalates (Conflict / range exhaustion) and
none otherwise, so a plain successful claim publishes nothing; every
publish assigns cursor `next_cursor + 1`, so over a daemon lifetime the
history cursors form exactly the sequence 1, 2, 3, ....  The original
claim — every successful mutating operation publishes exactly one event —
fails at a plain successful ClaimResource. -/
theorem daemon_publish_discipline :
    (∀ st : DaemonState, ∀ id : String, ∀ bb : List String,
      (Daemon.handle st (.createContract id bb)).1.events.next_cursor
          = st.events.next_cursor + 1 ∧
      (Daemon.handle st (.createContract id bb)).1.events.history
          = st.events.history ++ [⟨st.events.next_cursor + 1, .contractCreated id⟩]) ∧
    (∀ st : DaemonState, ∀ id : String, ∀ target : ContractStatus, ∀ resp : ApiResponse,
      (Daemon.handle st (.transitionContract id target)).2.2 = .ok resp →
      (Daemon.handle st (.transitionContract id target)).1.events.next_cursor
          = st.events.next_cursor + 1 ∧
      (Daemon.handle st (.transitionContract id target)).1.events.history.length
          = st.events.history.length + 1) ∧
    (∀ st : DaemonState, ∀ r : ResourceKey, ∀ o : String,
      st.resources.events = [] →
      ((∀ c, (st.resources.claim r o).2 ≠ .conflict c) →
        (Daemon.handle st (.claimResource r o)).1.events = st.events) ∧
      (∀ c, (st.resources.claim r o).2 = .conflict c →
        (Daemon.handle st (.claimResource r o)).1.events.next_cursor
            = st.events.next_cursor + 1 ∧
        (Daemon.handle st (.claimResource r o)).1.events.history.length
            = st.events.history.length + 1)) ∧
    (∀ st : DaemonState, ∀ n o : String, ∀ p : Option Nat,
      st.endpoints.events = [] →
      (st.endpoints.rangeExhaustedOn n (p.getD st.endpoints.port_range.1) →
        (Daemon.handle st (.claimEndpoint n o p)).1.events.next_cursor
            = st.events.next_cursor + 1 ∧
        (Daemon.handle st (.claimEndpoint n o p)).1.events.history
            = st.events.history ++
              [⟨st.events.next_cursor + 1,
                .endpointRangeExhausted n o (p.getD st.endpoints.port_range.1)
                  "endpoint_range_exhausted"⟩]) ∧
      (¬ st.endpoints.rangeExhaustedOn n (p.getD st.endpoints.port_range.1) →
        (Daemon.handle st (.claimEndpoint n o p)).1.events = st.events)) ∧
    (∀ st : DaemonState, ∀ req : ApiRequest,
      st.events.Wf → (Daemon.handle st req).1.events.Wf) ∧
    (∀ a b c d : Nat, (DaemonState.fresh a b c d).events.Wf) := by
  refine ⟨?_, ?_, ?_, ?_, ?_, ?_⟩
  · intro st id bb
    exact ⟨rfl, rfl⟩
  · intro st id target resp hok
    simp only [Daemon.handle] at hok ⊢
    cases hload : st.db.load_contract id with
    | none =>
      rw [hload] at hok
      simp at hok
    | some contract =>
      rw [hload] at hok
      simp only at hok ⊢
      cases htr : contract.transition_to target with
      | error e =>
        rw [htr] at hok
        simp at hok
      | ok updated =>
        rw [htr] at hok
        simp only at hok ⊢
        rcases hrec : st.db.record_transition updated.1 updated.2 with ⟨db2, res⟩
        cases res with
        | some err =>
          rw [hrec] at hok
          simp at hok
        | none => exact ⟨rfl, by simp [EventState.publish]⟩
  · intro st r o hdrained
    constructor
    · intro hnc
      simp only [Daemon.handle]
      have hev : ((st.resources.claim r o).1).events = [] := by
        rw [resource_claim_events_nonconflict st.resources r o hnc, hdrained]
      show (publishAll st.events
        ((((st.resources.claim r o).1).drain_events).2.map resourceEventKind)).1 = st.events
      show (publishAll st.events ((((st.resources.claim r o).1).events).map
        resourceEventKind)).1 = st.events
      rw [hev]
      rfl
    · intro c hc
      simp only [Daemon.handle]
      have hev : ((st.resources.claim r o).1).events
          = [.conflictEscalated r o c.held_by.owner "port_range_exhausted"] := by
        rw [resource_claim_events_conflict st.resources r o c hc, hdrained]
        rfl
      constructor
      · show (publishAll st.events ((((st.resources.claim r o).1).events).map
          resourceEventKind)).1.next_cursor = st.events.next_cursor + 1
        rw [hev]
        rfl
      · show (publishAll st.events ((((st.resources.claim r o).1).events).map
          resourceEventKind)).1.history.length = st.events.history.length + 1
        rw [hev]
        show ((st.events.publish _).1).history.length = st.events.history.length + 1
        simp [EventState.publish]
  · intro st n o p hdrained
    have hevents : (Daemon.handle st (.claimEndpoint n o p)).1.events
        = (publishAll st.events ((((st.endpoints.claim n o p).1).events).map
            endpointEventKind)).1 := by
      simp only [Daemon.handle]
      cases hres : (st.endpoints.claim n o p).2 with
      | conflict c =>
        simp only
        split <;> rfl
      | claimed lease => rfl
      | negotiated a b c => rfl
    constructor
    · intro hE
      have hev := (endpoint_claim_events_exact st.endpoints n o p).1 hE
      rw [hdrained] at hev
      constructor
      · rw [hevents, hev]
        rfl
      · rw [hevents, hev]
        rfl
    · intro hnE
      have hev := (endpoint_claim_events_exact st.endpoints n o p).2 hnE
      rw [hdrained] at hev
      rw [hevents, hev]
      rfl
  · intro st req hwf
    cases req with
    | health => exact hwf
    | createContract id bb => exact publish_wf _ _ hwf
    | listContracts => exact hwf
    | attentionStatus => exact hwf
    | transitionContract id target =>
      simp only [Daemon.handle]
      cases hload : st.db.load_contract id with
      | none => exact hwf
      | some contract =>
        simp only
        cases htr : contract.transition_to target with
        | error e => exact hwf
        | ok updated =>
          simp only
          rcases hrec : st.db.record_transition updated.1 updated.2 with ⟨db2, res⟩
          cases res with
          | some err => exact hwf
          | none => exact publish_wf _ _ hwf
    | getContract id =>
      simp only [Daemon.handle]
      cases hload : st.db.load_contract id with
      | none => exact hwf
      | some contract => exact hwf
    | claimResource r o => exact publishAll_wf _ _ hwf
    | claimEndpoint n o p =>
      simp only [Daemon.handle]
      cases hres : (st.endpoints.claim n o p).2 with
      | conflict c =>
        simp only
        split
        · exact publishAll_wf _ _ hwf
        · exact publishAll_wf _ _ hwf
      | claimed lease => exact publishAll_wf _ _ hwf
      | negotiated a b c => exact publishAll_wf _ _ hwf
    | listEndpoints => exact hwf
    | releaseEndpoint n o =>
      simp only [Daemon.handle]
      cases hrel : st.endpoints.release n o with
      | error e => exact hwf
      | ok released => exact hwf
  · intro a b c d
    exact ⟨rfl, rfl⟩

/-- Witness for C5: on a fresh daemon, CreateContract publishes the single
event with cursor 1; a plain successful ClaimResource and a plain
successful ClaimEndpoint leave the bus untouched; an exhausted endpoint
claim (range 4100-4100, port already held) publishes exactly the one
escalation event, at cursor 1. -/
theorem daemon_publish_discipline_witness :
    (Daemon.handle (DaemonState.fresh 3000 4999 4100 4999)
        (.createContract "c-1" [])).1.events.history
      = [⟨1, .contractCreated "c-1"⟩] ∧
    (Daemon.handle (DaemonState.fresh 3000 4999 4100 4999)
        (.claimResource (.port 3000) "a")).1.events
      = (DaemonState.fresh 3000 4999 4100 4999).events ∧
    (Daemon.handle (DaemonState.fresh 3000 4999 4100 4999)
        (.claimEndpoint "api" "a" (some 4100))).1.events
      = (DaemonState.fresh 3000 4999 4100 4999).events ∧
    (Daemon.handle ((Daemon.handle (DaemonState.fresh 3000 3001 4100 4100)
          (.claimEndpoint "api" "a" (some 4100))).1)
        (.claimEndpoint "web" "b" (some 4100))).1.events.history
      = ((Daemon.handle (DaemonState.fresh 3000 3001 4100 4100)
          (.claimEndpoint "api" "a" (some 4100))).1).events.history ++
        [⟨((Daemon.handle (DaemonState.fresh 3000 3001 4100 4100)
            (.claimEndpoint "api" "a" (some 4100))).1).events.next_cursor + 1,
          .endpointRangeExhausted "web" "b" 4100 "endpoint_range_exhausted"⟩] := by
  refine ⟨?_, ?_, ?_, ?_⟩
  · have h := (daemon_publish_discipline.1 (DaemonState.fresh 3000 4999 4100 4999)
      "c-1" []).2
    rw [h]
    rfl
  · refine (daemon_publish_discipline.2.2.1 (DaemonState.fresh 3000 4999 4100 4999)
      (.port 3000) "a" rfl).1 ?_
    intro c hc
    rw [show ((DaemonState.fresh 3000 4999 4100 4999).resources.claim
        (.port 3000) "a").2 = ClaimResult.claimed ⟨.port 3000, "a"⟩ from rfl] at hc
    cases hc
  · exact (daemon_publish_discipline.2.2.2.1 (DaemonState.fresh 3000 4999 4100 4999)
      "api" "a" (some 4100) rfl).2 (by decide)
  · exact ((daemon_publish_discipline.2.2.2.1
      ((Daemon.handle (DaemonState.fresh 3000 3001 4100 4100)
        (.claimEndpoint "api" "a" (some 4100))).1)
      "web" "b" (some 4100) rfl).1 (by decide)).2

/-- Counterexample to C5 as stated: a fresh daemon handles a ClaimResource
that succeeds with a plain Claimed result, yet `next_cursor` stays 0 and no
event is published. -/
theorem daemon_claim_publishes_nothing_counterexample :
    (Daemon.handle (DaemonState.fresh 3000 4999 4100 4999)
        (.claimResource (.port 3000) "a")).2.2
      = .ok (.resourceClaim (.claimed ⟨.port 3000, "a"⟩)) ∧
    (Daemon.handle (DaemonState.fresh 3000 4999 4100 4999)
        (.claimResource (.port 3000) "a")).1.events.next_cursor = 0 ∧
    (Daemon.handle (DaemonState.fresh 3000 4999 4100 4999)
        (.claimResource (.port 3000) "a")).1.events.history = [] :=
  ⟨rfl, rfl, rfl⟩

/-- C6 (spec-modelled): the daemon accepts ClaimEndpoint, ListEndpoints
and ReleaseEndpoint and answers them with the `endpointClaim`,
`endpoints` and `endpointReleased` response variants respectively, and
every mutating endpoint operation persists the full endpoint lease set to
the workspace JSON file before publishing its events: the effect trace is
the persist effect carrying the final lease export, followed only by
publish effects. -/
theorem daemon_endpoint_api (st : DaemonState) (n o : String) (p : Option Nat) :
    (∀ r : ApiResponse, (Daemon.handle st (.claimEndpoint n o p)).2.2 = .ok r →
      ∃ res, r = .endpointClaim res) ∧
    (∃ evs : List DaemonEvent,
      (Daemon.handle st (.claimEndpoint n o p)).2.1
        = .persistEndpoints
            ((Daemon.handle st (.claimEndpoint n o p)).1.endpoints.export_leases)
          :: evs.map DaemonEffect.published ∧
      (Daemon.handle st (.claimEndpoint n o p)).1.endpointsFile
        = (Daemon.handle st (.claimEndpoint n o p)).1.endpoints.export_leases) ∧
    (Daemon.handle st .listEndpoints) = (st, [], .ok (.endpoints st.endpoints.list)) ∧
    ((Daemon.handleEnvelope st .listEndpoints).2.2
        = .ok ⟨"v1", .endpoints st.endpoints.list⟩) ∧
    (∀ reg2 lease, st.endpoints.release n o = .ok (reg2, lease) →
      Daemon.handle st (.releaseEndpoint n o)
        = ({ st with endpoints := reg2, endpointsFile := reg2.export_leases },
           [.persistEndpoints reg2.export_leases], .ok (.endpointReleased lease))) := by
  refine ⟨?_, ?_, rfl, rfl, ?_⟩
  · intro r hr
    simp only [Daemon.handle] at hr
    cases hres : (st.endpoints.claim n o p).2 with
    | conflict c =>
      rw [hres] at hr
      simp only at hr
      split at hr
      · exact ⟨.conflict c, by cases hr; rfl⟩
      · cases hr
    | claimed lease =>
      rw [hres] at hr
      exact ⟨.claimed lease, by cases hr; rfl⟩
    | negotiated a b c =>
      rw [hres] at hr
      exact ⟨.negotiated a b c, by cases hr; rfl⟩
  · refine ⟨(publishAll st.events
      ((((st.endpoints.claim n o p).1).events).map endpointEventKind)).2, ?_, ?_⟩
    · simp only [Daemon.handle]
      cases hres : (st.endpoints.claim n o p).2 with
      | conflict c =>
        simp only
        split <;> rfl
      | claimed lease => rfl
      | negotiated a b c => rfl
    · simp only [Daemon.handle]
      cases hres : (st.endpoints.claim n o p).2 with
      | conflict c =>
        simp only
        split <;> rfl
      | claimed lease => rfl
      | negotiated a b c => rfl
  · intro reg2 lease hrel
    simp only [Daemon.handle]
    rw [hrel]

/-- Witness for C6: after claiming `api/a/4100` on a fresh daemon with
endpoint range 4100-4999, releasing it persists the now-empty lease set
and answers with `endpointReleased`. -/
theorem daemon_endpoint_api_witness :
    Daemon.handle
        ((Daemon.handle (DaemonState.fresh 3000 4999 4100 4999)
          (.claimEndpoint "api" "a" (some 4100))).1)
        (.releaseEndpoint "api" "a")
      = ({ (Daemon.handle (DaemonState.fresh 3000 4999 4100 4999)
            (.claimEndpoint "api" "a" (some 4100))).1 with
           endpoints := ⟨[], (4100, 4999), []⟩, endpointsFile := [] },
         [.persistEndpoints []],
         .ok (.endpointReleased ⟨"api", "a", 4100⟩)) := by
  have h := (daemon_endpoint_api
    ((Daemon.handle (DaemonState.fresh 3000 4999 4100 4999)
        (.claimEndpoint "api" "a" (some 4100))).1) "api" "a" (some 4100)).2.2.2.2
    ⟨[], (4100, 4999), []⟩ ⟨"api", "a", 4100⟩ rfl
  rw [h]
  rfl

/-- C10: CreateContract with an id that already exists in the store does
not fail: `save_contract` is an upsert, so the daemon silently overwrites
the existing snapshot with the freshly computed initial contract — status
Ready when the new blocked_by is empty, else Pending — discarding any
recorded lifecycle progress, and publishes another ContractCreated event
for the same id. -/
theorem create_contract_overwrites (st : DaemonState) (id : String)
    (bb : List String) (old : Contract)
    (_hold : st.db.load_contract id = some old) :
    (Daemon.handle st (.createContract id bb)).2.2
      = .ok (.contractState (Contract.new id bb)) ∧
    (Daemon.handle st (.createContract id bb)).1.db.load_contract id
      = some (Contract.new id bb) ∧
    (Contract.new id bb).status = (if bb.isEmpty then .ready else .pending) ∧
    (Daemon.handle st (.createContract id bb)).1.events.history
      = st.events.history ++ [⟨st.events.next_cursor + 1, .contractCreated id⟩] := by
  refine ⟨rfl, ?_, rfl, rfl⟩
  exact load_save_self st.db (Contract.new id bb)

/-- Witness for C10: create `c-1` blocked by `d` (Pending), then create
`c-1` again with no blockers; the snapshot is silently reset to Ready with
empty blocked_by. -/
theorem create_contract_overwrites_witness :
    (Daemon.handle ((Daemon.handle (DaemonState.fresh 3000 4999 4100 4999)
        (.createContract "c-1" ["d"])).1)
      (.createContract "c-1" [])).1.db.load_contract "c-1"
      = some (Contract.new "c-1" []) :=
  (create_contract_overwrites
    ((Daemon.handle (DaemonState.fresh 3000 4999 4100 4999)
      (.createContract "c-1" ["d"])).1)
    "c-1" [] ⟨"c-1", .pending, ["d"]⟩ rfl).2.1

end Stead
